import Mathlib

/-!
Verification development for the market-data indicator pipeline in
`aggregation/market_data.py`.

The Python code derives technical indicators (rolling moving average,
relative strength index, Bollinger bands) from a close-price series held in
a pandas DataFrame.  We embed the computation shallowly:

* a missing float value (pandas `NaN`) is `Option.none`; machine floats are
  modelled by an arbitrary linear ordered field `α` (instantiated at `ℚ`
  for concrete evaluation and at `ℝ` where the real square root is needed);
* the IEEE special cases produced by `avg_gain / avg_loss` (division by
  zero giving `+inf`, `0/0` giving `NaN`) are made explicit in `rsiAt`;
* `numpy.sqrt` is passed in as a function parameter `sq : α → α`; every
  theorem about the Bollinger bands instantiates it with `Real.sqrt`;
* a DataFrame is a timestamp index plus named columns of optional cells,
  and `MarketData.preprocess_data` becomes `preprocessData`, an
  `Except`-valued transformer of the whole object state (the Python method
  raises before any assignment on the missing-column path, so the error
  case leaves the state unchanged).
-/

namespace NYFA

/-! ## Series-level indicator computations (from `preprocess_data`) -/

variable {α : Type} [LinearOrderedField α] {β : Type} {γ : Type}

/-- Pandas `Series.diff`: entry `0` is missing, entry `i ≥ 1` is
`xs[i] - xs[i-1]`; a missing operand makes the difference missing. -/
def diffL : List (Option α) → List (Option α)
  | [] => []
  | x :: xs =>
    none :: List.zipWith (fun p n =>
      match p, n with
      | some pv, some nv => some (nv - pv)
      | _, _ => none) (x :: xs) xs

/-- One cell of `delta.where(delta > 0, 0)`: a positive difference is kept,
anything else — including a missing difference, whose comparison with 0 is
false — becomes `0`. -/
def gainCell : Option α → α
  | some d => if 0 < d then d else 0
  | none => 0

/-- One cell of `-delta.where(delta < 0, 0)`: a negative difference is
negated, anything else (missing included) becomes `0`. -/
def lossCell : Option α → α
  | some d => if d < 0 then -d else 0
  | none => 0

/-- The series `gain = delta.where(delta > 0, 0)` applied to the diff of the series. -/
def gains (xs : List (Option α)) : List α := (diffL xs).map gainCell

/-- The series `loss = -delta.where(delta < 0, 0)` applied to the diff of the series. -/
def losses (xs : List (Option α)) : List α := (diffL xs).map lossCell

/-- Extract a fully populated window: `some` of the values when no cell is
missing, otherwise `none` (pandas `rolling` with the default `min_periods`
requires `window` non-missing observations). -/
def seqOpt : List (Option α) → Option (List α)
  | [] => some []
  | none :: _ => none
  | some v :: t => (seqOpt t).map (fun l => v :: l)

/-- The trailing window of width `w` ending at index `i`, when `i` has at
least `w` observations before it (inclusive) and is in range. -/
def rollWindow (w : ℕ) (xs : List (Option α)) (i : ℕ) : Option (List α) :=
  if w ≤ i + 1 ∧ i < xs.length then
    seqOpt ((xs.take (i + 1)).drop (i + 1 - w))
  else none

/-- Pandas `Series.rolling(window=w).mean()` at index `i`. -/
def rollingMeanAt (w : ℕ) (xs : List (Option α)) (i : ℕ) : Option α :=
  (rollWindow w xs i).map (fun l => l.sum / (w : α))

/-- Sample variance with the `N-1` denominator (`pandas .std(ddof=1)`
squared) of one window of length `w`. -/
def sampleVar (w : ℕ) (l : List α) : α :=
  (l.map (fun x => (x - l.sum / (w : α)) ^ 2)).sum / ((w : α) - 1)

/-- Pandas `Series.rolling(window=w).std() ** 2` at index `i`. -/
def rollingVarAt (w : ℕ) (xs : List (Option α)) (i : ℕ) : Option α :=
  (rollWindow w xs i).map (sampleVar w)

/-- Pandas `Series.rolling(window=w).std()` at index `i`; `sq` is the square root
of the numeric carrier (instantiated with `Real.sqrt` in the theorems). -/
def stdAt (sq : α → α) (w : ℕ) (xs : List (Option α)) (i : ℕ) : Option α :=
  (rollingVarAt w xs i).map sq

/-- The series `avg_gain = gain.rolling(window=p).mean()` at index `i`. -/
def avgGainAt (p : ℕ) (xs : List (Option α)) (i : ℕ) : Option α :=
  rollingMeanAt p ((gains xs).map some) i

/-- The series `avg_loss = loss.rolling(window=p).mean()` at index `i`. -/
def avgLossAt (p : ℕ) (xs : List (Option α)) (i : ℕ) : Option α :=
  rollingMeanAt p ((losses xs).map some) i

/-- The series `rs = avg_gain / avg_loss; rsi = 100 - 100/(1+rs)` at index `i`, with
the float special cases spelled out: a positive gain over a zero loss is
`+inf`, giving rsi `100`; `0/0` is `NaN`, i.e. a missing result. -/
def rsiAt (p : ℕ) (xs : List (Option α)) (i : ℕ) : Option α :=
  match avgGainAt p xs i, avgLossAt p xs i with
  | some g, some l =>
      if l = 0 then (if g = 0 then none else some 100)
      else some (100 - 100 / (1 + g / l))
  | _, _ => none

/-- The series `upper_band = rolling_mean + rolling_std * k` at index `i` (missing when
either rolling statistic is missing). -/
def upperBandAt (sq : α → α) (w : ℕ) (k : α) (xs : List (Option α)) (i : ℕ) :
    Option α :=
  match rollingMeanAt w xs i, stdAt sq w xs i with
  | some m, some s => some (m + s * k)
  | _, _ => none

/-- The series `lower_band = rolling_mean - rolling_std * k` at index `i`. -/
def lowerBandAt (sq : α → α) (w : ℕ) (k : α) (xs : List (Option α)) (i : ℕ) :
    Option α :=
  match rollingMeanAt w xs i, stdAt sq w xs i with
  | some m, some s => some (m - s * k)
  | _, _ => none

/-- The whole `rolling_ma` column. -/
def rollingMaCol (w : ℕ) (xs : List (Option α)) : List (Option α) :=
  (List.range xs.length).map (rollingMeanAt w xs)

/-- The whole `rsi` column. -/
def rsiCol (p : ℕ) (xs : List (Option α)) : List (Option α) :=
  (List.range xs.length).map (rsiAt p xs)

/-- The whole `upper_band` column. -/
def upperBandCol (sq : α → α) (w : ℕ) (k : α) (xs : List (Option α)) :
    List (Option α) :=
  (List.range xs.length).map (upperBandAt sq w k xs)

/-- The whole `lower_band` column. -/
def lowerBandCol (sq : α → α) (w : ℕ) (k : α) (xs : List (Option α)) :
    List (Option α) :=
  (List.range xs.length).map (lowerBandAt sq w k xs)

/-! ## The DataFrame model -/

/-- Does `needle` occur at the start of the character list? -/
def segStart : List Char → List Char → Bool
  | [], _ => true
  | _ :: _, [] => false
  | a :: as, b :: bs => a == b && segStart as bs

/-- Does `needle` occur anywhere inside the character list? -/
def segIn (needle : List Char) : List Char → Bool
  | [] => needle.isEmpty
  | c :: t => segStart needle (c :: t) || segIn needle t

/-- The column-name test of `self.df.columns.str.contains(r'(?i)close')`:
a case-insensitive substring match on `close`. -/
def containsCloseCI (s : String) : Bool :=
  segIn ("close".toList) (s.toList.map Char.toLower)

/-- A pandas DataFrame with a datetime index, as used by the pipeline:
a timestamp index plus named columns of optional numeric cells. -/
structure DF (α : Type) where
  index : List Int
  cols : List (String × List (Option α))

/-- The column labels matching the close regex, in column order
(`self.df.columns[...contains...].tolist()`). -/
def DF.closeNames (df : DF α) : List String :=
  (df.cols.map Prod.fst).filter containsCloseCI

/-- Pandas `df.rename` with the single mapping from `old` to `new`: every
column labelled `old` is relabelled `new`; values untouched. -/
def DF.renameCol (df : DF α) (old new : String) : DF α :=
  DF.mk df.index (df.cols.map (fun c => if c.1 = old then (new, c.2) else c))

/-- Forward-fill one column, carrying the most recent non-missing value. -/
def ffillCol : Option α → List (Option α) → List (Option α)
  | _, [] => []
  | _, some v :: t => some v :: ffillCol (some v) t
  | prev, none :: t => prev :: ffillCol prev t

/-- Pandas `df.fillna(method='ffill')`, column by column. -/
def DF.ffill (df : DF α) : DF α :=
  DF.mk df.index (df.cols.map (fun c => (c.1, ffillCol none c.2)))

/-- Is row `i` free of missing cells? -/
def DF.rowFull (df : DF α) (i : ℕ) : Bool :=
  df.cols.all (fun c => (c.2.getD i none).isSome)

/-- Keep the elements whose position (counted from `start`) satisfies
`keep`. -/
def keepRowsFrom (keep : ℕ → Bool) : ℕ → List γ → List γ
  | _, [] => []
  | i, b :: t =>
    if keep i then b :: keepRowsFrom keep (i + 1) t
    else keepRowsFrom keep (i + 1) t

/-- Keep the elements whose position satisfies `keep`. -/
def keepRows (keep : ℕ → Bool) (l : List γ) : List γ := keepRowsFrom keep 0 l

/-- Pandas `df.dropna()`: drop every row that still has a missing cell, index
included. -/
def DF.dropna (df : DF α) : DF α :=
  DF.mk (keepRows df.rowFull df.index)
    (df.cols.map (fun c => (c.1, keepRows df.rowFull c.2)))

/-- Column read `df[nm]`: the values of the first column labelled `nm`. -/
def DF.getCol (df : DF α) (nm : String) : List (Option α) :=
  ((df.cols.find? (fun c => c.1 == nm)).map Prod.snd).getD []

/-- Column write `df[nm] = v`: replace every column labelled `nm`, or append a new one. -/
def DF.setCol (df : DF α) (nm : String) (v : List (Option α)) : DF α :=
  if df.cols.any (fun c => c.1 == nm) then
    DF.mk df.index (df.cols.map (fun c => if c.1 = nm then (nm, v) else c))
  else
    DF.mk df.index (df.cols ++ [(nm, v)])

/-- The rows of `self.df[['rolling_ma', 'rsi', 'upper_band',
'lower_band']].values`. -/
def DF.outputRows (df : DF α) :
    List (Option α × Option α × Option α × Option α) :=
  (List.range df.index.length).map (fun i =>
    ((df.getCol "rolling_ma").getD i none,
     (df.getCol "rsi").getD i none,
     (df.getCol "upper_band").getD i none,
     (df.getCol "lower_band").getD i none))

/-! ## The `MarketData` object and `preprocess_data` -/

/-- The mutable state of a `MarketData` object (the `raw_data` field, an
unparsed JSON payload, is irrelevant to the pipeline and omitted). -/
structure MarketData (α : Type) where
  apiKey : String
  interval : Option String
  symbol : Option String
  df : DF α
  processedData : Option (List (Option α × Option α × Option α × Option α))
  timestamps : Option (List Int)

/-- Lines 35-41 of the method: rename the found column to `close`,
forward-fill, and drop rows still containing a missing value. -/
def normalizedDF (df0 : DF α) (nm : String) : DF α :=
  ((df0.renameCol nm "close").ffill).dropna

/-- Lines 43-63 of the method: attach the rolling moving average, rsi and
Bollinger band columns, each computed from the current `close` column. -/
def withIndicators (sq : α → α) (df1 : DF α) : DF α :=
  let df2 := df1.setCol "rolling_ma" (rollingMaCol 10 (df1.getCol "close"))
  let df3 := df2.setCol "rsi" (rsiCol 14 (df2.getCol "close"))
  let df4 := df3.setCol "upper_band"
    (upperBandCol sq 10 2 (df3.getCol "close"))
  df4.setCol "lower_band" (lowerBandCol sq 10 2 (df4.getCol "close"))

/-- The method `MarketData.preprocess_data`: locate a close-like column (raising
before any state change when none exists), rename it, forward-fill, drop
residual missing rows, then attach the four indicator columns and record
the output array and timestamps.  `sq` is the square root used by the
Bollinger standard deviation. -/
def preprocessData (sq : α → α) (s : MarketData α) :
    Except String (MarketData α) :=
  match (s.df.cols.map Prod.fst).filter containsCloseCI with
  | [] => Except.error "The 'close' column is not present in the dataframe."
  | nm :: _ =>
    let df5 := withIndicators sq (normalizedDF s.df nm)
    Except.ok (MarketData.mk s.apiKey s.interval s.symbol df5
      (some df5.outputRows) (some df5.index))

/-! ## The `IntradayData` iterator -/

/-- The iterator state of an `IntradayData` object: the retrieved rows and
the cursor (`self.index`). -/
structure IntradayData (β : Type) where
  data : List β
  index : ℕ

/-- The method `has_next`: `self.index < len(self.data) - 1`, with the Python `-`
on integers. -/
def IntradayData.hasNext (s : IntradayData β) : Bool :=
  decide ((s.index : Int) < (s.data.length : Int) - 1)

/-- The method `next`: raise `StopIteration` (here `none`) when `has_next` is false,
otherwise yield `self.data.iloc[self.index]` and advance the cursor. -/
def IntradayData.next (s : IntradayData β) : Option (β × IntradayData β) :=
  if s.hasNext then
    match s.data[s.index]? with
    | some r => some (r, IntradayData.mk s.data (s.index + 1))
    | none => none
  else none

/-- Call `next` up to `fuel` times, collecting the yielded rows until the
iterator raises. -/
def runNext : ℕ → IntradayData β → List β
  | 0, _ => []
  | fuel + 1, s =>
    match s.next with
    | none => []
    | some (r, s2) => r :: runNext fuel s2

/-! ## Concrete inputs used by witnesses and counterexamples -/

/-- An alternating close series of length 14 (indices 0–13). -/
def alt14 : List ℚ := [1, 2, 1, 2, 1, 2, 1, 2, 1, 2, 1, 2, 1, 2]

/-- The close series 1, 2, then fourteen copies of 2 (length 16): it rises
once and is then flat for a full RSI period. -/
def riseFlat16 : List ℚ := 1 :: List.replicate 15 2

/-- A strictly increasing close series of length 15. -/
def up15 : List ℚ := [1, 2, 3, 4, 5, 6, 7, 8, 9, 10, 11, 12, 13, 14, 15]

/-- A constant close series of length 15. -/
def flat15 : List ℚ := List.replicate 15 5

/-- The spec's worked example: closes 1, 2, ..., 11. -/
def ex11 : List ℚ := [1, 2, 3, 4, 5, 6, 7, 8, 9, 10, 11]

/-- A single-row real-valued `MarketData` state, as returned by one
retrieval. -/
def mdOneRow : MarketData ℝ :=
  MarketData.mk "key" none none (DF.mk [0] [("4. close", [some 5])]) none none

/-- A real-valued `MarketData` state whose frame has two rows with the
same timestamp. -/
def mdDupTs : MarketData ℝ :=
  MarketData.mk "key" none none
    (DF.mk [0, 0] [("4. close", [some 5, some 6])]) none none

/-- A rational `MarketData` state with no close-like column. -/
def mdNoClose : MarketData ℚ :=
  MarketData.mk "key" none none (DF.mk [0] [("1. open", [some 5])]) none none

/-- A rational `MarketData` state with a close-like column. -/
def mdWithClose : MarketData ℚ :=
  MarketData.mk "key" none none
    (DF.mk [0, 1] [("1. open", [some 4, some 6]), ("4. close", [some 5, some 7])])
    none none

/-- The frame shared by the two states of the determinism witness. -/
def dfShared : DF ℚ := DF.mk [0, 1] [("4. close", [some 5, some 7])]

/-- A state holding `dfShared` with one API key. -/
def mdShared1 : MarketData ℚ :=
  MarketData.mk "key-one" (some "1min") none dfShared none none

/-- A state holding `dfShared` with another API key and residue from an
earlier run. -/
def mdShared2 : MarketData ℚ :=
  MarketData.mk "key-two" none (some "IBM") dfShared (some []) (some [7])

/-- A rational `MarketData` state with a non-monotonic timestamp index. -/
def mdNonMono : MarketData ℚ :=
  MarketData.mk "key" none none
    (DF.mk [5, 3, 3] [("4. close", [some 1, some 2, some 3])]) none none

/-- A normalized three-row rational state for the invariant witness. -/
def mdNormal3 : MarketData ℚ :=
  MarketData.mk "key" none none
    (DF.mk [0, 1, 2] [("4. close", [some 1, some 2, some 3])]) none none

/-- Concrete rows for the iterator witness. -/
def iterRows : List ℚ := [7, 8, 9]

/-- Ten constant closes, used by the Bollinger witness. -/
def tenOnes : List ℝ := List.replicate 10 1

/-! ## Lemmas about the series-level computations -/

lemma length_diffL (xs : List (Option α)) : (diffL xs).length = xs.length := by
  cases xs with
  | nil => rfl
  | cons x t => simp [diffL]

lemma length_gains (xs : List (Option α)) : (gains xs).length = xs.length := by
  simp [gains, length_diffL]

lemma length_losses (xs : List (Option α)) :
    (losses xs).length = xs.length := by
  simp [losses, length_diffL]

lemma gainCell_nonneg (c : Option α) : 0 ≤ gainCell c := by
  cases c with
  | none => simp [gainCell]
  | some d =>
    simp only [gainCell]
    split
    · linarith
    · exact le_refl 0

lemma lossCell_nonneg (c : Option α) : 0 ≤ lossCell c := by
  cases c with
  | none => simp [lossCell]
  | some d =>
    simp only [lossCell]
    split
    · linarith
    · exact le_refl 0

lemma mem_gains_nonneg (xs : List (Option α)) (y : α) (hy : y ∈ gains xs) :
    0 ≤ y := by
  obtain ⟨c, _, rfl⟩ := List.mem_map.mp hy
  exact gainCell_nonneg c

lemma mem_losses_nonneg (xs : List (Option α)) (y : α) (hy : y ∈ losses xs) :
    0 ≤ y := by
  obtain ⟨c, _, rfl⟩ := List.mem_map.mp hy
  exact lossCell_nonneg c

lemma seqOpt_eq_some (m : List (Option α)) (l : List α)
    (h : seqOpt m = some l) : m = l.map some := by
  induction m generalizing l with
  | nil =>
    simp only [seqOpt, Option.some.injEq] at h
    simp [← h]
  | cons c t ih =>
    cases c with
    | none => simp [seqOpt] at h
    | some v =>
      obtain ⟨l3, h3, rfl⟩ := Option.map_eq_some'.mp (by simpa [seqOpt] using h)
      simp [ih l3 h3]

lemma seqOpt_map_some (l : List α) : seqOpt (l.map some) = some l := by
  induction l with
  | nil => rfl
  | cons v t ih => simp [seqOpt, ih]

lemma rollWindow_map_some (ys : List α) (w i : ℕ) (h1 : w ≤ i + 1)
    (h2 : i < ys.length) :
    rollWindow w (ys.map some) i = some ((ys.take (i + 1)).drop (i + 1 - w)) := by
  have hlen : i < (ys.map some).length := by simpa using h2
  simp only [rollWindow, if_pos (And.intro h1 hlen)]
  rw [← List.map_take, ← List.map_drop, seqOpt_map_some]

lemma rollWindow_none (xs : List (Option α)) (w i : ℕ)
    (h : ¬(w ≤ i + 1 ∧ i < xs.length)) : rollWindow w xs i = none := by
  simp only [rollWindow, if_neg h]

lemma rollWindow_eq_some (xs : List (Option α)) (w i : ℕ) (l : List α)
    (h : rollWindow w xs i = some l) :
    (w ≤ i + 1 ∧ i < xs.length) ∧
      (xs.take (i + 1)).drop (i + 1 - w) = l.map some := by
  by_cases hc : w ≤ i + 1 ∧ i < xs.length
  · refine ⟨hc, ?_⟩
    rw [rollWindow, if_pos hc] at h
    exact seqOpt_eq_some _ _ h
  · rw [rollWindow_none xs w i hc] at h
    exact absurd h (by simp)

lemma rollWindow_length (xs : List (Option α)) (w i : ℕ) (l : List α)
    (h : rollWindow w xs i = some l) : l.length = w := by
  obtain ⟨⟨h1, h2⟩, heq⟩ := rollWindow_eq_some xs w i l h
  have := congrArg List.length heq
  simp only [List.length_drop, List.length_take, List.length_map] at this
  omega

lemma rollWindow_subset (xs : List (Option α)) (w i : ℕ) (l : List α)
    (h : rollWindow w xs i = some l) : ∀ x ∈ l, some x ∈ xs := by
  obtain ⟨_, heq⟩ := rollWindow_eq_some xs w i l h
  intro x hx
  have hmem : some x ∈ (xs.take (i + 1)).drop (i + 1 - w) := by
    rw [heq]
    exact List.mem_map_of_mem some hx
  exact ((List.drop_sublist _ _).trans (List.take_sublist _ _)).subset hmem

lemma mem_drop_take_last (ys : List α) (w i : ℕ) (hw : 1 ≤ w)
    (h1 : w ≤ i + 1) (h2 : i < ys.length) :
    ys[i] ∈ (ys.take (i + 1)).drop (i + 1 - w) := by
  have hlt : w - 1 < ((ys.take (i + 1)).drop (i + 1 - w)).length := by
    simp only [List.length_drop, List.length_take]
    omega
  have hval : ((ys.take (i + 1)).drop (i + 1 - w))[w - 1] = ys[i] := by
    rw [List.getElem_drop]
    have heq : i + 1 - w + (w - 1) = i := by omega
    simp only [heq]
    rw [List.getElem_take]
  exact hval ▸ List.getElem_mem hlt

lemma rollingMeanAt_none (xs : List (Option α)) (w i : ℕ)
    (h : ¬(w ≤ i + 1 ∧ i < xs.length)) : rollingMeanAt w xs i = none := by
  simp [rollingMeanAt, rollWindow_none xs w i h]

lemma rollingMeanAt_map_some (ys : List α) (w i : ℕ) (h1 : w ≤ i + 1)
    (h2 : i < ys.length) :
    rollingMeanAt w (ys.map some) i
      = some (((ys.take (i + 1)).drop (i + 1 - w)).sum / (w : α)) := by
  simp [rollingMeanAt, rollWindow_map_some ys w i h1 h2]

lemma diffL_map_some_succ (ys : List α) (j : ℕ)
    (hd : j + 1 < (diffL (ys.map some)).length) (hy : j + 1 < ys.length) :
    (diffL (ys.map some))[j + 1] = some (ys[j + 1] - ys[j]) := by
  cases ys with
  | nil => simp at hy
  | cons x t =>
    have hj : j < t.length := by simpa using hy
    simp only [List.map_cons, diffL, List.getElem_cons_succ,
      List.getElem_zipWith, List.getElem_map]
    simp only [← List.map_cons, List.getElem_map]

lemma diffL_zero (xs : List (Option α)) (hd : 0 < (diffL xs).length) :
    (diffL xs)[0] = none := by
  cases xs with
  | nil => simp [diffL] at hd
  | cons x t => rfl

lemma gains_getElem (xs : List (Option α)) (i : ℕ)
    (hg : i < (gains xs).length) (hd : i < (diffL xs).length) :
    (gains xs)[i] = gainCell ((diffL xs)[i]) := by
  simp [gains]

lemma losses_getElem (xs : List (Option α)) (i : ℕ)
    (hl : i < (losses xs).length) (hd : i < (diffL xs).length) :
    (losses xs)[i] = lossCell ((diffL xs)[i]) := by
  simp [losses]

lemma losses_chain_zero (ys : List α) (hc : List.Chain' (· < ·) ys)
    (y : α) (hy : y ∈ losses (ys.map some)) : y = 0 := by
  obtain ⟨c, hcmem, rfl⟩ := List.mem_map.mp hy
  obtain ⟨k, hk, hck⟩ := List.mem_iff_getElem.mp hcmem
  have hk2 : k < ys.length := by
    rw [length_diffL] at hk
    simpa using hk
  cases k with
  | zero =>
    rw [diffL_zero (ys.map some) hk] at hck
    rw [← hck]
    rfl
  | succ j =>
    rw [diffL_map_some_succ ys j hk (by simpa using hk2)] at hck
    rw [← hck]
    have hjy : j < ys.length := by omega
    have hlt : ys[j] < ys[j + 1] := by
      have hcg := List.chain'_iff_get.mp hc j (by omega)
      simpa using hcg
    simp only [lossCell]
    rw [if_neg (by linarith)]

lemma gains_chain_pos (ys : List α) (hc : List.Chain' (· < ·) ys) (i : ℕ)
    (h0 : 1 ≤ i) (h : i < ys.length)
    (hg : i < (gains (ys.map some)).length) :
    0 < (gains (ys.map some))[i] := by
  obtain ⟨j, rfl⟩ : ∃ j, i = j + 1 := ⟨i - 1, by omega⟩
  have hd : j + 1 < (diffL (ys.map some)).length := by
    rw [length_diffL]
    simpa using h
  rw [gains_getElem (ys.map some) (j + 1) hg hd]
  rw [diffL_map_some_succ ys j hd (by simpa using h)]
  have hjy : j < ys.length := by omega
  have hlt : ys[j] < ys[j + 1] := by
    have hcg := List.chain'_iff_get.mp hc j (by omega)
    simpa using hcg
  simp only [gainCell]
  rw [if_pos (by linarith)]
  linarith

lemma avgGainAt_eq (xs : List (Option α)) (p i : ℕ) (h1 : p ≤ i + 1)
    (h2 : i < xs.length) :
    avgGainAt p xs i
      = some ((((gains xs).take (i + 1)).drop (i + 1 - p)).sum / (p : α)) := by
  unfold avgGainAt
  exact rollingMeanAt_map_some (gains xs) p i h1 (by rw [length_gains]; exact h2)

lemma avgLossAt_eq (xs : List (Option α)) (p i : ℕ) (h1 : p ≤ i + 1)
    (h2 : i < xs.length) :
    avgLossAt p xs i
      = some ((((losses xs).take (i + 1)).drop (i + 1 - p)).sum / (p : α)) := by
  unfold avgLossAt
  exact rollingMeanAt_map_some (losses xs) p i h1
    (by rw [length_losses]; exact h2)

lemma avgGainAt_none (xs : List (Option α)) (p i : ℕ)
    (h : ¬(p ≤ i + 1 ∧ i < xs.length)) : avgGainAt p xs i = none := by
  unfold avgGainAt
  refine rollingMeanAt_none _ p i ?_
  simpa [length_gains] using h

lemma avgLossAt_none (xs : List (Option α)) (p i : ℕ)
    (h : ¬(p ≤ i + 1 ∧ i < xs.length)) : avgLossAt p xs i = none := by
  unfold avgLossAt
  refine rollingMeanAt_none _ p i ?_
  simpa [length_losses] using h

lemma avgGainAt_nonneg (xs : List (Option α)) (p i : ℕ) (g : α)
    (h : avgGainAt p xs i = some g) : 0 ≤ g := by
  unfold avgGainAt rollingMeanAt at h
  obtain ⟨l, hl, rfl⟩ := Option.map_eq_some'.mp h
  refine div_nonneg (List.sum_nonneg ?_) (by positivity)
  intro y hy
  have := rollWindow_subset _ p i l hl y hy
  exact mem_gains_nonneg xs y (by simpa using this)

lemma avgLossAt_nonneg (xs : List (Option α)) (p i : ℕ) (l : α)
    (h : avgLossAt p xs i = some l) : 0 ≤ l := by
  unfold avgLossAt rollingMeanAt at h
  obtain ⟨w, hw, rfl⟩ := Option.map_eq_some'.mp h
  refine div_nonneg (List.sum_nonneg ?_) (by positivity)
  intro y hy
  have := rollWindow_subset _ p i w hw y hy
  exact mem_losses_nonneg xs y (by simpa using this)

lemma avgLossAt_chain (ys : List α) (hc : List.Chain' (· < ·) ys)
    (p i : ℕ) (h1 : p ≤ i + 1) (h2 : i < ys.length) :
    avgLossAt p (ys.map some) i = some 0 := by
  rw [avgLossAt_eq (ys.map some) p i h1 (by simpa using h2)]
  have hz : (((losses (ys.map some)).take (i + 1)).drop (i + 1 - p)).sum = 0 := by
    refine List.sum_eq_zero ?_
    intro y hy
    refine losses_chain_zero ys hc y ?_
    exact ((List.drop_sublist _ _).trans (List.take_sublist _ _)).subset hy
  rw [hz, zero_div]

lemma avgGainAt_chain_pos (ys : List α) (hc : List.Chain' (· < ·) ys)
    (p i : ℕ) (hp : 1 ≤ p) (hi : 1 ≤ i) (h1 : p ≤ i + 1) (h2 : i < ys.length) :
    ∃ g, avgGainAt p (ys.map some) i = some g ∧ 0 < g := by
  rw [avgGainAt_eq (ys.map some) p i h1 (by simpa using h2)]
  refine ⟨_, rfl, ?_⟩
  have hlen : i < (gains (ys.map some)).length := by
    rw [length_gains]
    simpa using h2
  have hmem : (gains (ys.map some))[i]
      ∈ ((gains (ys.map some)).take (i + 1)).drop (i + 1 - p) :=
    mem_drop_take_last (gains (ys.map some)) p i hp h1 hlen
  have hpos : 0 < (gains (ys.map some))[i] :=
    gains_chain_pos ys hc i hi h2 hlen
  have hnn : ∀ y ∈ ((gains (ys.map some)).take (i + 1)).drop (i + 1 - p), 0 ≤ y := by
    intro y hy
    refine mem_gains_nonneg (ys.map some) y ?_
    exact ((List.drop_sublist _ _).trans (List.take_sublist _ _)).subset hy
  have hsum : 0 < (((gains (ys.map some)).take (i + 1)).drop (i + 1 - p)).sum :=
    lt_of_lt_of_le hpos (List.single_le_sum hnn _ hmem)
  have hpcast : (0 : α) < (p : α) := by
    exact_mod_cast Nat.pos_of_ne_zero (by omega)
  exact div_pos hsum hpcast

lemma rsiAt_eq_none_iff (p : ℕ) (xs : List (Option α)) (i : ℕ) :
    rsiAt p xs i = none ↔
      (avgGainAt p xs i = none ∨ avgLossAt p xs i = none ∨
        (avgGainAt p xs i = some 0 ∧ avgLossAt p xs i = some 0)) := by
  unfold rsiAt
  rcases hg : avgGainAt p xs i with _ | g
  · simp
  · rcases hl : avgLossAt p xs i with _ | l
    · simp
    · by_cases hl0 : l = 0
      · by_cases hg0 : g = 0
        · simp [hl0, hg0]
        · simp [hl0, hg0]
      · simp [hl0]

lemma rsiAt_mem_Icc (p : ℕ) (xs : List (Option α)) (i : ℕ) (r : α)
    (h : rsiAt p xs i = some r) : 0 ≤ r ∧ r ≤ 100 := by
  unfold rsiAt at h
  rcases hg : avgGainAt p xs i with _ | g <;> rw [hg] at h
  · exact absurd h (by simp)
  rcases hl : avgLossAt p xs i with _ | l <;> rw [hl] at h
  · exact absurd h (by simp)
  have hgn : 0 ≤ g := avgGainAt_nonneg xs p i g hg
  have hln : 0 ≤ l := avgLossAt_nonneg xs p i l hl
  replace h : (if l = 0 then (if g = 0 then none else some 100)
      else some (100 - 100 / (1 + g / l))) = some r := h
  by_cases hl0 : l = 0
  · rw [if_pos hl0] at h
    by_cases hg0 : g = 0
    · rw [if_pos hg0] at h
      exact absurd h (by simp)
    · rw [if_neg hg0] at h
      have : r = 100 := by simpa using h.symm
      rw [this]
      norm_num
  · rw [if_neg hl0] at h
    have hlpos : 0 < l := lt_of_le_of_ne hln (Ne.symm hl0)
    have hrs : 0 ≤ g / l := div_nonneg hgn (le_of_lt hlpos)
    have hden : (0 : α) < 1 + g / l := by linarith
    have hfrac_pos : 0 < 100 / (1 + g / l) := div_pos (by norm_num) hden
    have hfrac_le : 100 / (1 + g / l) ≤ 100 := by
      refine div_le_self (by norm_num) (by linarith)
    have hr : r = 100 - 100 / (1 + g / l) := by simpa using h.symm
    constructor <;> rw [hr] <;> linarith

/-! ## Claims C1, C4 (counterexample), C5, C7, C8 -/

/-- Claim C1 is false on the code: for the 14-bar alternating close series,
`avg_gain`, `avg_loss` and `rsi` are already non-null at index `P - 1 = 13`
(the claim says `avg_gain`/`avg_loss` are null until index `P = 14` and
`rsi` until index `P + 1`), because the missing first difference is turned
into a zero gain and a zero loss by `where` before the rolling mean. -/
theorem claim_C1_counterexample :
    alt14.length = 14 ∧
    avgGainAt 14 (alt14.map some) 13 = some (1 / 2) ∧
    avgLossAt 14 (alt14.map some) 13 = some (3 / 7) ∧
    rsiAt 14 (alt14.map some) 13 = some (700 / 13) := by
  refine ⟨rfl, ?_, ?_, ?_⟩
  · norm_num [avgGainAt, rollingMeanAt, rollWindow, seqOpt, gains, diffL,
      gainCell, alt14]
  · norm_num [avgLossAt, rollingMeanAt, rollWindow, seqOpt, losses, diffL,
      lossCell, alt14]
  · norm_num [rsiAt, avgGainAt, avgLossAt, rollingMeanAt, rollWindow, seqOpt,
      gains, losses, diffL, gainCell, lossCell, alt14]

/-- Claim C1 (amended): with period `P = 14`, `avg_gain` and `avg_loss`
are null exactly at indices `i < P - 1 = 13` — the missing first
difference is coerced to a zero gain/loss, so the first full window ends
at index `P - 1`, not `P` — and from index `P - 1` on both are non-null,
with `rsi` null there exactly when the trailing window is flat
(`avg_gain = avg_loss = 0`). -/
theorem claim_C1_amended (xs : List α) (i : ℕ) (hi : i < xs.length) :
    (i < 13 → avgGainAt 14 (xs.map some) i = none ∧
      avgLossAt 14 (xs.map some) i = none ∧ rsiAt 14 (xs.map some) i = none) ∧
    (13 ≤ i → (∃ g, avgGainAt 14 (xs.map some) i = some g) ∧
      (∃ l, avgLossAt 14 (xs.map some) i = some l) ∧
      (rsiAt 14 (xs.map some) i = none ↔
        avgGainAt 14 (xs.map some) i = some 0 ∧
          avgLossAt 14 (xs.map some) i = some 0)) := by
  constructor
  · intro h13
    have hcond : ¬(14 ≤ i + 1 ∧ i < (xs.map some).length) := by
      simp only [List.length_map]
      omega
    refine ⟨avgGainAt_none _ 14 i hcond, avgLossAt_none _ 14 i hcond, ?_⟩
    rw [rsiAt_eq_none_iff]
    exact Or.inl (avgGainAt_none _ 14 i hcond)
  · intro h13
    have e1 := avgGainAt_eq (xs.map some) 14 i (by omega) (by simpa using hi)
    have e2 := avgLossAt_eq (xs.map some) 14 i (by omega) (by simpa using hi)
    refine ⟨⟨_, e1⟩, ⟨_, e2⟩, ?_⟩
    rw [rsiAt_eq_none_iff]
    rw [e1, e2]
    simp

/-- Witness for the amended claim C1 at the alternating 14-bar series:
null at index 5, populated at index 13. -/
theorem claim_C1_amended_witness :
    (avgGainAt 14 (alt14.map some) 5 = none ∧
      avgLossAt 14 (alt14.map some) 5 = none ∧
      rsiAt 14 (alt14.map some) 5 = none) ∧
    ((∃ g, avgGainAt 14 (alt14.map some) 13 = some g) ∧
      (∃ l, avgLossAt 14 (alt14.map some) 13 = some l) ∧
      (rsiAt 14 (alt14.map some) 13 = none ↔
        avgGainAt 14 (alt14.map some) 13 = some 0 ∧
          avgLossAt 14 (alt14.map some) 13 = some 0)) :=
  ⟨(claim_C1_amended alt14 5 (by decide)).1 (by decide),
   (claim_C1_amended alt14 13 (by decide)).2 (by decide)⟩

/-- Claim C4 is false on the code in its no-resurrection part: for the
16-bar series that rises once and then stays flat, the rsi field is
non-null at index 14 but null again at index 15, where the trailing
14 differences are all zero (`0/0` division). -/
theorem claim_C4_counterexample :
    riseFlat16.length = 16 ∧
    rsiAt 14 (riseFlat16.map some) 14 = some 100 ∧
    rsiAt 14 (riseFlat16.map some) 15 = none := by
  refine ⟨rfl, ?_, ?_⟩
  · norm_num [rsiAt, avgGainAt, avgLossAt, rollingMeanAt, rollWindow, seqOpt,
      gains, losses, diffL, gainCell, lossCell, riseFlat16, List.replicate]
  · norm_num [rsiAt, avgGainAt, avgLossAt, rollingMeanAt, rollWindow, seqOpt,
      gains, losses, diffL, gainCell, lossCell, riseFlat16, List.replicate]

/-- Claim C5: the rolling moving average with window `W = 10` is null
exactly where fewer than `W` observations are available (first `W - 1`
indices), and elsewhere equals the naive arithmetic mean of the trailing
ten closes; in particular for closes 1..11 it is null up to index 8,
`5.5` at index 9 and `6.5` at index 10. -/
theorem claim_C5 :
    (∀ (F : Type) [LinearOrderedField F] (xs : List F) (i : ℕ),
      (¬(9 ≤ i ∧ i < xs.length) → rollingMeanAt 10 (xs.map some) i = none) ∧
      (9 ≤ i → i < xs.length →
        rollingMeanAt 10 (xs.map some) i
          = some (((xs.drop (i - 9)).take 10).sum / (10 : F)))) ∧
    ((∀ i < 9, rollingMeanAt 10 (ex11.map some) i = none) ∧
      rollingMeanAt 10 (ex11.map some) 9 = some (11 / 2) ∧
      rollingMeanAt 10 (ex11.map some) 10 = some (13 / 2)) := by
  constructor
  · intro F _ xs i
    constructor
    · intro h
      refine rollingMeanAt_none _ 10 i ?_
      simp only [List.length_map]
      omega
    · intro h9 hlen
      rw [rollingMeanAt_map_some xs 10 i (by omega) hlen]
      have h1 : i + 1 - 10 = i - 9 := by omega
      rw [h1, List.drop_take (i + 1) (i - 9) xs]
      have h2 : i + 1 - (i - 9) = 10 := by omega
      rw [h2]
      norm_num
  · refine ⟨?_, ?_, ?_⟩
    · intro i hi
      interval_cases i <;> decide
    · norm_num [rollingMeanAt, rollWindow, seqOpt, ex11]
    · norm_num [rollingMeanAt, rollWindow, seqOpt, ex11]

/-- Witness for claim C5: the general statement applied to the worked
example 1..11 at indices 10 (value), 3 (null), and the example conjunct. -/
theorem claim_C5_witness :
    rollingMeanAt 10 (ex11.map some) 10
      = some (((ex11.drop 1).take 10).sum / (10 : ℚ)) ∧
    rollingMeanAt 10 (ex11.map some) 3 = none ∧
    rollingMeanAt 10 (ex11.map some) 9 = some (11 / 2) :=
  ⟨(claim_C5.1 ℚ ex11 10).2 (by norm_num) (by decide),
   (claim_C5.1 ℚ ex11 3).1 (by decide),
   claim_C5.2.2.1⟩

/-- Claim C7: wherever the rsi value is non-null it lies in `[0, 100]`;
and on a strictly increasing close series the valid rsi indices are
exactly `13 ≤ i < n`, with rsi `= 100` at every one of them. -/
theorem claim_C7 :
    (∀ (xs : List (Option α)) (i : ℕ) (r : α),
      rsiAt 14 xs i = some r → 0 ≤ r ∧ r ≤ 100) ∧
    (∀ ys : List α, List.Chain' (· < ·) ys → ∀ i : ℕ,
      (rsiAt 14 (ys.map some) i ≠ none ↔ 13 ≤ i ∧ i < ys.length) ∧
      (13 ≤ i → i < ys.length → rsiAt 14 (ys.map some) i = some 100)) := by
  constructor
  · intro xs i r h
    exact rsiAt_mem_Icc 14 xs i r h
  · intro ys hc i
    have hmain : 13 ≤ i → i < ys.length →
        rsiAt 14 (ys.map some) i = some 100 := by
      intro h13 hlen
      obtain ⟨g, hg, hgpos⟩ :=
        avgGainAt_chain_pos ys hc 14 i (by norm_num) (by omega) (by omega) hlen
      have hl := avgLossAt_chain ys hc 14 i (by omega) hlen
      unfold rsiAt
      rw [hg, hl]
      show (if (0 : α) = 0 then (if g = 0 then none else some 100)
          else some (100 - 100 / (1 + g / 0))) = some 100
      rw [if_pos rfl, if_neg (ne_of_gt hgpos)]
    refine ⟨⟨?_, ?_⟩, hmain⟩
    · intro hne
      by_contra hcon
      have hcond : ¬(14 ≤ i + 1 ∧ i < (ys.map some).length) := by
        simp only [List.length_map]
        omega
      exact hne ((rsiAt_eq_none_iff 14 (ys.map some) i).mpr
        (Or.inl (avgGainAt_none _ 14 i hcond)))
    · rintro ⟨h13, hlen⟩
      rw [hmain h13 hlen]
      simp

/-- Witness for claim C7: concrete bounds from the alternating series and
rsi `= 100` on the strictly increasing 15-bar series. -/
theorem claim_C7_witness :
    (0 ≤ (700 / 13 : ℚ) ∧ (700 / 13 : ℚ) ≤ 100) ∧
    rsiAt 14 (up15.map some) 14 = some 100 :=
  ⟨claim_C7.1 (alt14.map some) 13 (700 / 13)
     (by norm_num [rsiAt, avgGainAt, avgLossAt, rollingMeanAt, rollWindow,
       seqOpt, gains, losses, diffL, gainCell, lossCell, alt14]),
   (claim_C7.2 up15 (by norm_num [up15]) 14).2 (by decide) (by decide)⟩

/-- Claim C8: when `avg_loss = 0` and `avg_gain > 0` the rsi value is
100 (`rs = +inf`); when `avg_loss = 0` and `avg_gain = 0` (flat trailing
period) the rsi value is null (`0/0`), not a silently propagated number. -/
theorem claim_C8 (xs : List (Option α)) (i : ℕ) (g l : α)
    (hg : avgGainAt 14 xs i = some g) (hl : avgLossAt 14 xs i = some l)
    (hl0 : l = 0) :
    (0 < g → rsiAt 14 xs i = some 100) ∧ (g = 0 → rsiAt 14 xs i = none) := by
  subst hl0
  constructor
  · intro hgpos
    unfold rsiAt
    rw [hg, hl]
    show (if (0 : α) = 0 then (if g = 0 then none else some 100)
        else some (100 - 100 / (1 + g / 0))) = some 100
    rw [if_pos rfl, if_neg (ne_of_gt hgpos)]
  · intro hg0
    subst hg0
    unfold rsiAt
    rw [hg, hl]
    show (if (0 : α) = 0 then (if (0 : α) = 0 then none else some 100)
        else some (100 - 100 / (1 + 0 / 0))) = none
    rw [if_pos rfl, if_pos rfl]

/-! ## Claim C6: Bollinger bands -/

lemma sampleVar_nonneg (w : ℕ) (hw : 2 ≤ w) (l : List α) :
    0 ≤ sampleVar w l := by
  unfold sampleVar
  refine div_nonneg (List.sum_nonneg ?_) ?_
  · intro y hy
    obtain ⟨x, _, rfl⟩ := List.mem_map.mp hy
    exact sq_nonneg _
  · have : (2 : α) ≤ (w : α) := by exact_mod_cast hw
    linarith

lemma rollingVarAt_map_some (ys : List α) (w i : ℕ) (h1 : w ≤ i + 1)
    (h2 : i < ys.length) :
    rollingVarAt w (ys.map some) i
      = some (sampleVar w ((ys.take (i + 1)).drop (i + 1 - w))) := by
  simp [rollingVarAt, rollWindow_map_some ys w i h1 h2]

lemma rollingVarAt_none (xs : List (Option α)) (w i : ℕ)
    (h : ¬(w ≤ i + 1 ∧ i < xs.length)) : rollingVarAt w xs i = none := by
  simp [rollingVarAt, rollWindow_none xs w i h]

/-- Claim C6: with window `W = 10` and multiplier `K = 2`, both Bollinger
bands are null exactly where the rolling statistics are (first `W - 1`
indices); elsewhere `upper = m + 2 s` and `lower = m - 2 s` where `m` is
the rolling mean and `s` is the nonnegative square root of the trailing
sample variance with the `N - 1 = 9` denominator. -/
theorem claim_C6 (xs : List ℝ) (i : ℕ) :
    (¬(9 ≤ i ∧ i < xs.length) →
      upperBandAt Real.sqrt 10 2 (xs.map some) i = none ∧
      lowerBandAt Real.sqrt 10 2 (xs.map some) i = none) ∧
    (9 ≤ i → i < xs.length → ∃ m s,
      rollingMeanAt 10 (xs.map some) i = some m ∧ 0 ≤ s ∧
      s ^ 2 = (((xs.drop (i - 9)).take 10).map
        (fun x => (x - ((xs.drop (i - 9)).take 10).sum / 10) ^ 2)).sum / 9 ∧
      upperBandAt Real.sqrt 10 2 (xs.map some) i = some (m + s * 2) ∧
      lowerBandAt Real.sqrt 10 2 (xs.map some) i = some (m - s * 2)) := by
  constructor
  · intro h
    have hcond : ¬(10 ≤ i + 1 ∧ i < (xs.map some).length) := by
      simp only [List.length_map]
      omega
    have hmean := rollingMeanAt_none (xs.map some) 10 i hcond
    have hvar := rollingVarAt_none (xs.map some) 10 i hcond
    constructor
    · unfold upperBandAt stdAt
      rw [hmean, hvar]
    · unfold lowerBandAt stdAt
      rw [hmean, hvar]
  · intro h9 hlen
    have hmean := rollingMeanAt_map_some xs 10 i (by omega) hlen
    have hvar := rollingVarAt_map_some xs 10 i (by omega) hlen
    set W := (xs.take (i + 1)).drop (i + 1 - 10) with hW
    refine ⟨_, Real.sqrt (sampleVar 10 W),
      hmean, Real.sqrt_nonneg _, ?_, ?_, ?_⟩
    · rw [Real.sq_sqrt (sampleVar_nonneg 10 (by norm_num) W)]
      have hWspec : W = (xs.drop (i - 9)).take 10 := by
        rw [hW]
        have h1 : i + 1 - 10 = i - 9 := by omega
        rw [h1, List.drop_take (i + 1) (i - 9) xs]
        have h2 : i + 1 - (i - 9) = 10 := by omega
        rw [h2]
      rw [hWspec]
      unfold sampleVar
      norm_num
    · unfold upperBandAt stdAt
      rw [hmean, hvar]
      simp [Option.map_some']
    · unfold lowerBandAt stdAt
      rw [hmean, hvar]
      simp [Option.map_some']

/-- Witness for claim C6 at ten constant closes and index 9. -/
theorem claim_C6_witness :
    ∃ m s, rollingMeanAt 10 (tenOnes.map some) 9 = some m ∧ 0 ≤ s ∧
      s ^ 2 = (((tenOnes.drop 0).take 10).map
        (fun x => (x - ((tenOnes.drop 0).take 10).sum / 10) ^ 2)).sum / 9 ∧
      upperBandAt Real.sqrt 10 2 (tenOnes.map some) 9 = some (m + s * 2) ∧
      lowerBandAt Real.sqrt 10 2 (tenOnes.map some) 9 = some (m - s * 2) :=
  (claim_C6 tenOnes 9).2 (le_refl 9) (by norm_num [tenOnes])

/-- Witness for claim C8: the flat 15-bar series gives a null rsi at
index 13; the strictly increasing 15-bar series gives rsi 100 there. -/
theorem claim_C8_witness :
    rsiAt 14 (flat15.map some) 13 = none ∧
    rsiAt 14 (up15.map some) 13 = some 100 :=
  ⟨(claim_C8 (flat15.map some) 13 0 0
      (by norm_num [avgGainAt, rollingMeanAt, rollWindow, seqOpt, gains, diffL,
        gainCell, flat15, List.replicate])
      (by norm_num [avgLossAt, rollingMeanAt, rollWindow, seqOpt, losses, diffL,
        lossCell, flat15, List.replicate]) rfl).2 rfl,
   (claim_C8 (up15.map some) 13 (13 / 14) 0
      (by norm_num [avgGainAt, rollingMeanAt, rollWindow, seqOpt, gains, diffL,
        gainCell, up15])
      (by norm_num [avgLossAt, rollingMeanAt, rollWindow, seqOpt, losses, diffL,
        lossCell, up15]) rfl).1
     (by norm_num)⟩

/-! ## Claim C10: the intraday iterator -/

lemma hasNext_iff (s : IntradayData β) :
    s.hasNext = true ↔ s.index + 1 < s.data.length := by
  unfold IntradayData.hasNext
  rw [decide_eq_true_eq]
  omega

lemma next_eq_some (data : List β) (i : ℕ) (h : i + 1 < data.length) :
    IntradayData.next (IntradayData.mk data i)
      = some (data[i], IntradayData.mk data (i + 1)) := by
  unfold IntradayData.next
  rw [if_pos ((hasNext_iff (IntradayData.mk data i)).mpr h)]
  rw [List.getElem?_eq_getElem (by omega : i < data.length)]

lemma next_eq_none (data : List β) (i : ℕ) (h : ¬(i + 1 < data.length)) :
    IntradayData.next (IntradayData.mk data i) = none := by
  unfold IntradayData.next
  rw [if_neg ?_]
  intro hcon
  exact h ((hasNext_iff (IntradayData.mk data i)).mp hcon)

lemma runNext_eq (data : List β) : ∀ fuel i : ℕ,
    data.length - 1 - i ≤ fuel →
    runNext fuel (IntradayData.mk data i)
      = (data.take (data.length - 1)).drop i := by
  intro fuel
  induction fuel with
  | zero =>
    intro i h
    show ([] : List β) = _
    symm
    refine List.drop_eq_nil_of_le ?_
    simp only [List.length_take]
    omega
  | succ fuel ih =>
    intro i h
    by_cases hc : i + 1 < data.length
    · have hi : i < (data.take (data.length - 1)).length := by
        simp only [List.length_take]
        omega
      rw [show runNext (fuel + 1) (IntradayData.mk data i)
          = match (IntradayData.mk data i).next with
            | none => []
            | some (r, s2) => r :: runNext fuel s2 from rfl]
      rw [next_eq_some data i hc]
      show data[i] :: runNext fuel (IntradayData.mk data (i + 1))
          = (data.take (data.length - 1)).drop i
      rw [ih (i + 1) (by omega)]
      rw [List.drop_eq_getElem_cons hi]
      congr 1
      rw [List.getElem_take]
    · rw [show runNext (fuel + 1) (IntradayData.mk data i)
          = match (IntradayData.mk data i).next with
            | none => []
            | some (r, s2) => r :: runNext fuel s2 from rfl]
      rw [next_eq_none data i hc]
      symm
      refine List.drop_eq_nil_of_le ?_
      simp only [List.length_take]
      omega

/-- Claim C10: on a retrieved series of `n ≥ 1` rows, repeated `next()`
calls from a fresh iterator yield exactly the first `n - 1` rows in index
order; once the cursor reaches `n - 1`, `has_next` is false and `next()`
raises `StopIteration` (modelled as `none`), so the last row is never
yielded. -/
theorem claim_C10 (B : Type) (data : List B) (h : 1 ≤ data.length) :
    runNext data.length (IntradayData.mk data 0)
      = data.take (data.length - 1) ∧
    (IntradayData.mk data (data.length - 1)).hasNext = false ∧
    IntradayData.next (IntradayData.mk data (data.length - 1)) = none := by
  refine ⟨?_, ?_, ?_⟩
  · rw [runNext_eq data data.length 0 (by omega)]
    exact List.drop_zero _
  · rw [Bool.eq_false_iff]
    intro hcon
    have := (hasNext_iff (IntradayData.mk data (data.length - 1))).mp hcon
    simp only at this
    omega
  · exact next_eq_none data (data.length - 1) (by omega)

/-- Witness for claim C10 on a concrete three-row series: rows 0 and 1
are yielded, then the iterator stops, never yielding row 2. -/
theorem claim_C10_witness :
    runNext iterRows.length (IntradayData.mk iterRows 0)
      = iterRows.take (iterRows.length - 1) ∧
    (IntradayData.mk iterRows (iterRows.length - 1)).hasNext = false ∧
    IntradayData.next (IntradayData.mk iterRows (iterRows.length - 1))
      = none :=
  claim_C10 ℚ iterRows (by norm_num [iterRows])

/-! ## Lemmas about the DataFrame operations -/

lemma segStart_iff (n h : List Char) :
    segStart n h = true ↔ ∃ r, h = n ++ r := by
  induction n generalizing h with
  | nil => simp [segStart]
  | cons a as ih =>
    cases h with
    | nil => simp [segStart]
    | cons b bs =>
      simp only [segStart, Bool.and_eq_true, beq_iff_eq, ih, List.cons_append]
      constructor
      · rintro ⟨rfl, r, rfl⟩
        exact ⟨r, rfl⟩
      · rintro ⟨r, hr⟩
        obtain ⟨h1, h2⟩ := List.cons.inj hr
        exact ⟨h1.symm, r, h2⟩

lemma segIn_iff (n h : List Char) :
    segIn n h = true ↔ ∃ l r, h = l ++ n ++ r := by
  induction h with
  | nil =>
    simp only [segIn, List.isEmpty_iff]
    constructor
    · rintro rfl
      exact ⟨[], [], rfl⟩
    · rintro ⟨l, r, hr⟩
      rcases List.append_eq_nil.mp hr.symm with ⟨hln, hr0⟩
      exact (List.append_eq_nil.mp hln).2
  | cons c t ih =>
    simp only [segIn, Bool.or_eq_true, segStart_iff, ih]
    constructor
    · rintro (⟨r, hr⟩ | ⟨l, r, rfl⟩)
      · exact ⟨[], r, by simpa using hr⟩
      · exact ⟨c :: l, r, by simp⟩
    · rintro ⟨l, r, hr⟩
      cases l with
      | nil => exact Or.inl ⟨r, by simpa using hr⟩
      | cons x l2 =>
        obtain ⟨h1, h2⟩ := List.cons.inj (by simpa using hr)
        exact Or.inr ⟨l2, r, by simpa using h2⟩

lemma containsCloseCI_iff (s : String) :
    containsCloseCI s = true ↔
      ∃ l r, s.toList.map Char.toLower = l ++ "close".toList ++ r :=
  segIn_iff _ _

lemma ffillCol_all_some (prev : Option α) (l : List (Option α))
    (h : ∀ x ∈ l, x.isSome = true) : ffillCol prev l = l := by
  induction l generalizing prev with
  | nil => rfl
  | cons x t ih =>
    cases x with
    | none => exact absurd (h none (List.mem_cons_self _ _)) (by simp)
    | some v =>
      simp only [ffillCol]
      rw [ih (some v) (fun y hy => h y (List.mem_cons_of_mem _ hy))]

lemma keepRowsFrom_of_true (keep : ℕ → Bool) (l : List γ) : ∀ j : ℕ,
    (∀ k, j ≤ k → k < j + l.length → keep k = true) →
    keepRowsFrom keep j l = l := by
  induction l with
  | nil => intro j _; rfl
  | cons b t ih =>
    intro j h
    simp only [keepRowsFrom]
    rw [if_pos (h j (le_refl j) (by simp only [List.length_cons]; omega))]
    congr 1
    refine ih (j + 1) ?_
    intro k hk1 hk2
    exact h k (by omega) (by simp only [List.length_cons]; omega)

lemma keepRowsFrom_sublist (keep : ℕ → Bool) (l : List γ) : ∀ j : ℕ,
    List.Sublist (keepRowsFrom keep j l) l := by
  induction l with
  | nil => intro j; simp [keepRowsFrom]
  | cons b t ih =>
    intro j
    simp only [keepRowsFrom]
    split
    · exact (ih (j + 1)).cons₂ b
    · exact (ih (j + 1)).cons b

lemma find?_all_neg_append (l1 l2 : List γ) (p : γ → Bool)
    (h : ∀ c ∈ l1, ¬(p c = true)) : (l1 ++ l2).find? p = l2.find? p := by
  rw [List.find?_append, List.find?_eq_none.mpr h]
  rfl

lemma find?_replace_hit (nm : String) (v : List (Option α)) :
    ∀ cols : List (String × List (Option α)),
    (∃ c ∈ cols, c.1 = nm) →
    ((cols.map (fun c => if c.1 = nm then (nm, v) else c)).find?
      (fun c => c.1 == nm)) = some (nm, v) := by
  intro cols
  induction cols with
  | nil =>
    rintro ⟨c, hc, _⟩
    exact absurd hc (by simp)
  | cons c t ih =>
    intro hex
    by_cases hc : c.1 = nm
    · simp only [List.map_cons, if_pos hc]
      rw [List.find?_cons_of_pos _ (by simp)]
    · simp only [List.map_cons, if_neg hc]
      rw [List.find?_cons_of_neg _ (by simp [hc])]
      refine ih ?_
      obtain ⟨d, hd, hdnm⟩ := hex
      rcases List.mem_cons.mp hd with rfl | hdt
      · exact absurd hdnm hc
      · exact ⟨d, hdt, hdnm⟩

lemma find?_replace_ne (nm nm' : String) (hne : nm' ≠ nm)
    (v : List (Option α)) :
    ∀ cols : List (String × List (Option α)),
    ((cols.map (fun c => if c.1 = nm then (nm, v) else c)).find?
      (fun c => c.1 == nm')) = cols.find? (fun c => c.1 == nm') := by
  intro cols
  induction cols with
  | nil => rfl
  | cons c t ih =>
    by_cases hc : c.1 = nm
    · simp only [List.map_cons, if_pos hc]
      rw [List.find?_cons_of_neg _ (by simp [Ne.symm hne]),
        List.find?_cons_of_neg _ (by simp [hc, Ne.symm hne])]
      exact ih
    · simp only [List.map_cons, if_neg hc]
      by_cases hp : c.1 = nm'
      · rw [List.find?_cons_of_pos _ (by simp [hp]),
          List.find?_cons_of_pos _ (by simp [hp])]
      · rw [List.find?_cons_of_neg _ (by simp [hp]),
          List.find?_cons_of_neg _ (by simp [hp])]
        exact ih

lemma index_setCol (df : DF α) (nm : String) (v : List (Option α)) :
    (df.setCol nm v).index = df.index := by
  unfold DF.setCol
  split <;> rfl

lemma getCol_setCol_same (df : DF α) (nm : String) (v : List (Option α)) :
    (df.setCol nm v).getCol nm = v := by
  unfold DF.setCol DF.getCol
  by_cases hany : df.cols.any (fun c => c.1 == nm) = true
  · rw [if_pos hany]
    have hex : ∃ c ∈ df.cols, c.1 = nm := by
      obtain ⟨c, hc, hcp⟩ := List.any_eq_true.mp hany
      exact ⟨c, hc, by simpa using hcp⟩
    simp [find?_replace_hit nm v df.cols hex]
  · rw [if_neg hany]
    have hall : ∀ c ∈ df.cols, ¬((fun c : String × List (Option α) =>
        c.1 == nm) c = true) := by
      intro c hc hcon
      exact hany (List.any_eq_true.mpr ⟨c, hc, hcon⟩)
    rw [find?_all_neg_append df.cols [(nm, v)] _ hall]
    rw [List.find?_cons_of_pos _ (by simp)]
    rfl

lemma getCol_setCol_ne (df : DF α) (nm nm' : String) (v : List (Option α))
    (h : nm' ≠ nm) : (df.setCol nm v).getCol nm' = df.getCol nm' := by
  unfold DF.setCol DF.getCol
  by_cases hany : df.cols.any (fun c => c.1 == nm) = true
  · rw [if_pos hany]
    simp only
    rw [find?_replace_ne nm nm' h v df.cols]
  · rw [if_neg hany]
    rw [List.find?_append]
    have hlast : ([((nm, v) : String × List (Option α))]).find?
        (fun c => c.1 == nm') = none := by
      rw [List.find?_cons_of_neg _ (by simp [Ne.symm h])]
      rfl
    rw [hlast]
    simp

lemma getCol_split (idx : List Int) (pre post : List (String × List (Option α)))
    (nm : String) (vals : List (Option α)) (hpre : ∀ c ∈ pre, c.1 ≠ nm) :
    (DF.mk idx (pre ++ (nm, vals) :: post)).getCol nm = vals := by
  unfold DF.getCol
  simp only
  rw [find?_all_neg_append pre _ _ (fun c hc => by simp [hpre c hc])]
  rw [List.find?_cons_of_pos _ (by simp)]
  rfl

lemma getD_range_map (f : ℕ → Option α) (n i : ℕ) (h : i < n) :
    ((List.range n).map f).getD i none = f i := by
  rw [List.getD_eq_getElem _ _ (by simpa using h)]
  simp

lemma renameCol_split (idx : List Int)
    (pre post : List (String × List (Option α))) (nm : String)
    (vals : List (Option α))
    (hpre : ∀ c ∈ pre, c.1 ≠ nm) (hpost : ∀ c ∈ post, c.1 ≠ nm) :
    (DF.mk idx (pre ++ (nm, vals) :: post)).renameCol nm "close"
      = DF.mk idx (pre ++ ("close", vals) :: post) := by
  unfold DF.renameCol
  simp only [List.map_append, List.map_cons, if_true]
  congr 1
  congr 1
  · calc pre.map (fun c => if c.1 = nm then ("close", c.2) else c)
        = pre.map (fun c => c) :=
          List.map_congr_left (fun c hc => if_neg (hpre c hc))
      _ = pre := List.map_id' pre
  · congr 1
    calc post.map (fun c => if c.1 = nm then ("close", c.2) else c)
        = post.map (fun c => c) :=
          List.map_congr_left (fun c hc => if_neg (hpost c hc))
      _ = post := List.map_id' post

lemma ffill_of_full (df : DF α)
    (hfull : ∀ c ∈ df.cols, ∀ x ∈ c.2, x.isSome = true) :
    df.ffill = df := by
  unfold DF.ffill
  cases df with
  | mk idx cols =>
    simp only at hfull ⊢
    congr 1
    calc cols.map (fun c => (c.1, ffillCol none c.2))
        = cols.map (fun c => c) := List.map_congr_left (fun c hc => by
          rw [ffillCol_all_some none c.2 (hfull c hc)])
      _ = cols := List.map_id' cols

lemma dropna_of_full (df : DF α)
    (hrect : ∀ c ∈ df.cols, c.2.length = df.index.length)
    (hfull : ∀ c ∈ df.cols, ∀ x ∈ c.2, x.isSome = true) :
    df.dropna = df := by
  have hrow : ∀ k, k < df.index.length → df.rowFull k = true := by
    intro k hk
    unfold DF.rowFull
    rw [List.all_eq_true]
    intro c hc
    rw [List.getD_eq_getElem c.2 none (by rw [hrect c hc]; exact hk)]
    exact hfull c hc _ (List.getElem_mem _)
  unfold DF.dropna
  cases df with
  | mk idx cols =>
    simp only at hrow hrect hfull ⊢
    congr 1
    · exact keepRowsFrom_of_true _ idx 0 (fun k _ hk2 => hrow k (by omega))
    · have hmapeq : cols.map
          (fun c => (c.1, keepRows (DF.mk idx cols).rowFull c.2))
          = cols.map (fun c => c) :=
        List.map_congr_left (fun c hc => by
          unfold keepRows
          rw [keepRowsFrom_of_true _ c.2 0 (fun k _ hk2 => hrow k (by
            rw [← hrect c hc]
            omega))])
      rw [hmapeq, List.map_id']

lemma normalizedDF_split (idx : List Int)
    (pre post : List (String × List (Option α))) (nm : String)
    (vals : List (Option α))
    (hnm : containsCloseCI nm = true)
    (hpre : ∀ c ∈ pre, containsCloseCI c.1 = false)
    (hpost : ∀ c ∈ post, containsCloseCI c.1 = false)
    (hrect : ∀ c ∈ pre ++ (nm, vals) :: post, c.2.length = idx.length)
    (hfull : ∀ c ∈ pre ++ (nm, vals) :: post, ∀ x ∈ c.2, x.isSome = true) :
    normalizedDF (DF.mk idx (pre ++ (nm, vals) :: post)) nm
      = DF.mk idx (pre ++ ("close", vals) :: post) := by
  have hprene : ∀ c ∈ pre, c.1 ≠ nm := by
    intro c hc he
    have h2 := hpre c hc
    rw [he, hnm] at h2
    simp at h2
  have hpostne : ∀ c ∈ post, c.1 ≠ nm := by
    intro c hc he
    have h2 := hpost c hc
    rw [he, hnm] at h2
    simp at h2
  have hmem : ∀ c ∈ pre ++ ("close", vals) :: post,
      c.2.length = idx.length ∧ ∀ x ∈ c.2, x.isSome = true := by
    intro c hc
    rcases List.mem_append.mp hc with hcp | hcc
    · exact ⟨hrect c (List.mem_append_left _ hcp),
        hfull c (List.mem_append_left _ hcp)⟩
    · rcases List.mem_cons.mp hcc with rfl | hcpost
      · constructor
        · exact hrect (nm, vals)
            (List.mem_append_right _ (List.mem_cons_self _ _))
        · exact hfull (nm, vals)
            (List.mem_append_right _ (List.mem_cons_self _ _))
      · constructor
        · exact hrect c
            (List.mem_append_right _ (List.mem_cons_of_mem _ hcpost))
        · exact hfull c
            (List.mem_append_right _ (List.mem_cons_of_mem _ hcpost))
  unfold normalizedDF
  rw [renameCol_split idx pre post nm vals hprene hpostne]
  rw [ffill_of_full _ (fun c hc => (hmem c hc).2)]
  exact dropna_of_full _ (fun c hc => (hmem c hc).1) (fun c hc => (hmem c hc).2)

lemma index_withIndicators (sq : α → α) (df1 : DF α) :
    (withIndicators sq df1).index = df1.index := by
  simp only [withIndicators]
  rw [index_setCol, index_setCol, index_setCol, index_setCol]

lemma withIndicators_cols (sq : α → α) (df1 : DF α) :
    (withIndicators sq df1).getCol "rolling_ma"
      = rollingMaCol 10 (df1.getCol "close") ∧
    (withIndicators sq df1).getCol "rsi" = rsiCol 14 (df1.getCol "close") ∧
    (withIndicators sq df1).getCol "upper_band"
      = upperBandCol sq 10 2 (df1.getCol "close") ∧
    (withIndicators sq df1).getCol "lower_band"
      = lowerBandCol sq 10 2 (df1.getCol "close") := by
  simp only [withIndicators]
  have e2 : (df1.setCol "rolling_ma"
      (rollingMaCol 10 (df1.getCol "close"))).getCol "close"
      = df1.getCol "close" :=
    getCol_setCol_ne df1 "rolling_ma" "close" _ (by decide)
  rw [e2]
  have e3 : ((df1.setCol "rolling_ma"
      (rollingMaCol 10 (df1.getCol "close"))).setCol "rsi"
        (rsiCol 14 (df1.getCol "close"))).getCol "close"
      = df1.getCol "close" := by
    rw [getCol_setCol_ne _ "rsi" "close" _ (by decide), e2]
  rw [e3]
  have e4 : (((df1.setCol "rolling_ma"
      (rollingMaCol 10 (df1.getCol "close"))).setCol "rsi"
        (rsiCol 14 (df1.getCol "close"))).setCol "upper_band"
          (upperBandCol sq 10 2 (df1.getCol "close"))).getCol "close"
      = df1.getCol "close" := by
    rw [getCol_setCol_ne _ "upper_band" "close" _ (by decide), e3]
  rw [e4]
  refine ⟨?_, ?_, ?_, ?_⟩
  · rw [getCol_setCol_ne _ "lower_band" "rolling_ma" _ (by decide),
      getCol_setCol_ne _ "upper_band" "rolling_ma" _ (by decide),
      getCol_setCol_ne _ "rsi" "rolling_ma" _ (by decide),
      getCol_setCol_same df1 "rolling_ma" _]
  · rw [getCol_setCol_ne _ "lower_band" "rsi" _ (by decide),
      getCol_setCol_ne _ "upper_band" "rsi" _ (by decide),
      getCol_setCol_same _ "rsi" _]
  · rw [getCol_setCol_ne _ "lower_band" "upper_band" _ (by decide),
      getCol_setCol_same _ "upper_band" _]
  · rw [getCol_setCol_same _ "lower_band" _]

lemma exists_unmap (xs : List (Option α))
    (h : ∀ x ∈ xs, x.isSome = true) : ∃ ys : List α, xs = ys.map some := by
  induction xs with
  | nil => exact ⟨[], rfl⟩
  | cons x t ih =>
    cases x with
    | none => exact absurd (h none (List.mem_cons_self _ _)) (by simp)
    | some v =>
      obtain ⟨ys, hys⟩ := ih (fun y hy => h y (List.mem_cons_of_mem _ hy))
      exact ⟨v :: ys, by rw [hys]; rfl⟩

lemma rollingMeanAt_none_iff (ys : List α) (w i : ℕ) (hi : i < ys.length) :
    rollingMeanAt w (ys.map some) i = none ↔ i + 1 < w := by
  constructor
  · intro h
    by_contra hcon
    push_neg at hcon
    rw [rollingMeanAt_map_some ys w i hcon hi] at h
    exact absurd h (by simp)
  · intro h
    refine rollingMeanAt_none _ w i ?_
    simp only [List.length_map]
    omega

lemma upperBandAt_none_iff (sq : α → α) (w : ℕ) (k : α) (ys : List α)
    (i : ℕ) (hi : i < ys.length) :
    upperBandAt sq w k (ys.map some) i = none ↔ i + 1 < w := by
  constructor
  · intro h
    by_contra hcon
    push_neg at hcon
    unfold upperBandAt stdAt at h
    rw [rollingMeanAt_map_some ys w i hcon hi,
      rollingVarAt_map_some ys w i hcon hi] at h
    exact absurd h (by simp)
  · intro h
    have hcond : ¬(w ≤ i + 1 ∧ i < (ys.map some).length) := by
      simp only [List.length_map]
      omega
    unfold upperBandAt stdAt
    rw [rollingMeanAt_none _ w i hcond, rollingVarAt_none _ w i hcond]

lemma lowerBandAt_none_iff (sq : α → α) (w : ℕ) (k : α) (ys : List α)
    (i : ℕ) (hi : i < ys.length) :
    lowerBandAt sq w k (ys.map some) i = none ↔ i + 1 < w := by
  constructor
  · intro h
    by_contra hcon
    push_neg at hcon
    unfold lowerBandAt stdAt at h
    rw [rollingMeanAt_map_some ys w i hcon hi,
      rollingVarAt_map_some ys w i hcon hi] at h
    exact absurd h (by simp)
  · intro h
    have hcond : ¬(w ≤ i + 1 ∧ i < (ys.map some).length) := by
      simp only [List.length_map]
      omega
    unfold lowerBandAt stdAt
    rw [rollingMeanAt_none _ w i hcond, rollingVarAt_none _ w i hcond]

lemma rsiAt_none_iff_map_some (ys : List α) (p i : ℕ) (hi : i < ys.length) :
    rsiAt p (ys.map some) i = none ↔
      (i + 1 < p ∨ (avgGainAt p (ys.map some) i = some 0 ∧
        avgLossAt p (ys.map some) i = some 0)) := by
  rw [rsiAt_eq_none_iff]
  by_cases hc : p ≤ i + 1
  · have e1 := avgGainAt_eq (ys.map some) p i hc (by simpa using hi)
    have e2 := avgLossAt_eq (ys.map some) p i hc (by simpa using hi)
    have hnp : ¬(i + 1 < p) := by omega
    simp only [e1, e2]
    simp [hnp]
  · have h1 := avgGainAt_none (ys.map some) p i (by
      simp only [List.length_map]
      omega)
    have h2 := avgLossAt_none (ys.map some) p i (by
      simp only [List.length_map]
      omega)
    have hp : i + 1 < p := by omega
    simp [h1, h2, hp]

/-! ## Claims C3, C9, C2, C4 -/

/-- Claim C3: the close column is located by a case-insensitive substring
match on `close`; when no column name matches, `preprocess_data` raises
the missing-field error before any state change (the `Except` error
carries no new state, and in the source the `raise` precedes every
assignment), and when a close-like column exists no such error is
raised. -/
theorem claim_C3 :
    (∀ nm : String, containsCloseCI nm = true ↔
      ∃ l r, nm.toList.map Char.toLower = l ++ "close".toList ++ r) ∧
    (∀ (F : Type) [LinearOrderedField F] (sq : F → F) (s : MarketData F),
      ((∀ c ∈ s.df.cols, containsCloseCI c.1 = false) →
        preprocessData sq s = Except.error
          "The 'close' column is not present in the dataframe.") ∧
      ((∃ c ∈ s.df.cols, containsCloseCI c.1 = true) →
        ∃ t, preprocessData sq s = Except.ok t)) := by
  refine ⟨containsCloseCI_iff, ?_⟩
  intro F _ sq s
  constructor
  · intro hnone
    unfold preprocessData
    have hfil : (s.df.cols.map Prod.fst).filter containsCloseCI = [] := by
      rw [List.filter_eq_nil_iff]
      intro a ha
      obtain ⟨c, hc, rfl⟩ := List.mem_map.mp ha
      simp [hnone c hc]
    rw [hfil]
  · intro hex
    unfold preprocessData
    rcases hfil : (s.df.cols.map Prod.fst).filter containsCloseCI
      with _ | ⟨nm, rest⟩
    · exfalso
      obtain ⟨c, hc, hcp⟩ := hex
      have hmem : c.1 ∈ (s.df.cols.map Prod.fst).filter containsCloseCI :=
        List.mem_filter.mpr ⟨List.mem_map_of_mem _ hc, hcp⟩
      rw [hfil] at hmem
      exact absurd hmem (List.not_mem_nil _)
    · exact ⟨_, rfl⟩

/-- Witness for claim C3: a frame with only an `open` column errors, a
frame with a `4. close` column succeeds, and the matcher agrees with the
substring decomposition on `4. close`. -/
theorem claim_C3_witness :
    preprocessData (fun x : ℚ => x) mdNoClose
      = Except.error "The 'close' column is not present in the dataframe." ∧
    (∃ t, preprocessData (fun x : ℚ => x) mdWithClose = Except.ok t) ∧
    (containsCloseCI "4. close" = true ↔ ∃ l r,
      "4. close".toList.map Char.toLower = l ++ "close".toList ++ r) :=
  ⟨(claim_C3.2 ℚ _ mdNoClose).1 (by
      intro c hc
      have hc2 : c = ("1. open", [some (5 : ℚ)]) := by
        simpa [mdNoClose] using hc
      rw [hc2]
      rfl),
   (claim_C3.2 ℚ _ mdWithClose).2
     ⟨("4. close", [some 5, some 7]),
      List.mem_cons_of_mem _ (List.mem_cons_self _ _), rfl⟩,
   claim_C3.1 "4. close"⟩

/-- Claim C9 is false on the code: a frame whose two rows carry the same
timestamp is processed without any error — there is no timestamp
validation at all — and the duplicate timestamps are passed through to
the output unchanged. -/
theorem claim_C9_counterexample :
    mdDupTs.df.index = [0, 0] ∧
    (preprocessData Real.sqrt mdDupTs).map MarketData.timestamps
      = Except.ok (some [0, 0]) ∧
    (∃ t, preprocessData Real.sqrt mdDupTs = Except.ok t) :=
  ⟨rfl, rfl, ⟨_, rfl⟩⟩

/-- Claim C9 (amended): the pipeline performs no timestamp validation.
Any frame with a close-like column is processed successfully regardless
of timestamp order or duplicates; the output timestamps are a sublist of
the input timestamps in their original order (rows are only ever removed
by `dropna`, never reordered or deduplicated). -/
theorem claim_C9_amended (F : Type) [LinearOrderedField F] (sq : F → F)
    (s : MarketData F)
    (hex : ∃ c ∈ s.df.cols, containsCloseCI c.1 = true) :
    ∃ t, preprocessData sq s = Except.ok t ∧
      List.Sublist t.df.index s.df.index ∧
      t.timestamps = some t.df.index := by
  unfold preprocessData
  rcases hfil : (s.df.cols.map Prod.fst).filter containsCloseCI
    with _ | ⟨nm, rest⟩
  · exfalso
    obtain ⟨c, hc, hcp⟩ := hex
    have hmem : c.1 ∈ (s.df.cols.map Prod.fst).filter containsCloseCI :=
      List.mem_filter.mpr ⟨List.mem_map_of_mem _ hc, hcp⟩
    rw [hfil] at hmem
    exact absurd hmem (List.not_mem_nil _)
  · refine ⟨_, rfl, ?_, rfl⟩
    rw [index_withIndicators]
    show List.Sublist (keepRowsFrom _ 0 s.df.index) s.df.index
    exact keepRowsFrom_sublist _ s.df.index 0

/-- Witness for the amended claim C9 on a non-monotonic timestamp index:
the series is accepted and its timestamps survive in order. -/
theorem claim_C9_amended_witness :
    ∃ t, preprocessData (fun x : ℚ => x) mdNonMono = Except.ok t ∧
      List.Sublist t.df.index mdNonMono.df.index ∧
      t.timestamps = some t.df.index :=
  claim_C9_amended ℚ _ mdNonMono
    ⟨("4. close", [some 1, some 2, some 3]), List.mem_cons_self _ _, rfl⟩

/-- Claim C2 is false on the code: `preprocess_data` mutates the stored
frame, so running it twice on the same object is not idempotent — on a
one-row frame the first run yields one (all-null) output row, while the
second run forward-fills and then drops that row (its indicator cells
are null) and yields an empty output. -/
theorem claim_C2_counterexample :
    (preprocessData Real.sqrt mdOneRow).map MarketData.processedData
      = Except.ok (some [(none, none, none, none)]) ∧
    ((preprocessData Real.sqrt mdOneRow).bind
        (preprocessData Real.sqrt)).map MarketData.processedData
      = Except.ok (some []) ∧
    (Except.ok (some ([] : List (Option ℝ × Option ℝ × Option ℝ × Option ℝ)))
        : Except String
          (Option (List (Option ℝ × Option ℝ × Option ℝ × Option ℝ))))
      ≠ Except.ok (some [(none, none, none, none)]) := by
  refine ⟨rfl, rfl, ?_⟩
  simp

/-- Claim C2 (amended): each single invocation is a deterministic
function of the stored frame alone — two objects holding the same frame
produce identical frames, output arrays and timestamps, whatever their
other fields hold.  The original claim fails only because the method
mutates the stored frame between invocations. -/
theorem claim_C2_amended (F : Type) [LinearOrderedField F] (sq : F → F)
    (s t : MarketData F) (h : s.df = t.df) :
    (preprocessData sq s).map
        (fun r => (r.df, r.processedData, r.timestamps))
      = (preprocessData sq t).map
          (fun r => (r.df, r.processedData, r.timestamps)) := by
  unfold preprocessData
  rw [h]
  cases (t.df.cols.map Prod.fst).filter containsCloseCI with
  | nil => rfl
  | cons nm rest => rfl

/-- Witness for the amended claim C2: two objects with different API
keys, symbols and stale outputs but the same frame produce the same
result. -/
theorem claim_C2_amended_witness :
    (preprocessData (fun x : ℚ => x) mdShared1).map
        (fun r => (r.df, r.processedData, r.timestamps))
      = (preprocessData (fun x : ℚ => x) mdShared2).map
          (fun r => (r.df, r.processedData, r.timestamps)) :=
  claim_C2_amended ℚ _ mdShared1 mdShared2 rfl

/-- Claim C4 (amended): on a normalized frame (exactly one close-like
column, rectangular, no missing cells) the pipeline succeeds; the output
has one row per input row and carries the input timestamps unchanged;
every output cell equals the corresponding series-level indicator on the
close column; `rolling_ma` and both bands are null exactly at the first
`W - 1 = 9` indices, while `rsi` is null at the first `P - 1 = 13`
indices and additionally wherever the trailing window of differences is
flat (`avg_gain = avg_loss = 0`), so an rsi null can recur after valid
values (no-resurrection fails for rsi). -/
theorem claim_C4_amended (F : Type) [LinearOrderedField F] (sq : F → F)
    (s : MarketData F) (idx : List Int)
    (pre post : List (String × List (Option F))) (nm : String)
    (vals : List (Option F))
    (hsdf : s.df = DF.mk idx (pre ++ (nm, vals) :: post))
    (hnm : containsCloseCI nm = true)
    (hpre : ∀ c ∈ pre, containsCloseCI c.1 = false)
    (hpost : ∀ c ∈ post, containsCloseCI c.1 = false)
    (hrect : ∀ c ∈ pre ++ (nm, vals) :: post, c.2.length = idx.length)
    (hfull : ∀ c ∈ pre ++ (nm, vals) :: post, ∀ x ∈ c.2, x.isSome = true) :
    ∃ t out, preprocessData sq s = Except.ok t ∧
      t.timestamps = some idx ∧ t.processedData = some out ∧
      out.length = idx.length ∧
      ∀ i : ℕ, ∀ hio : i < out.length,
        out[i] = (rollingMeanAt 10 vals i, rsiAt 14 vals i,
          upperBandAt sq 10 2 vals i, lowerBandAt sq 10 2 vals i) ∧
        (out[i].1 = none ↔ i < 9) ∧
        (out[i].2.2.1 = none ↔ i < 9) ∧
        (out[i].2.2.2 = none ↔ i < 9) ∧
        (out[i].2.1 = none ↔ (i < 13 ∨ (avgGainAt 14 vals i = some 0 ∧
          avgLossAt 14 vals i = some 0))) := by
  have hvlen : vals.length = idx.length :=
    hrect (nm, vals) (List.mem_append_right _ (List.mem_cons_self _ _))
  have hvfull : ∀ x ∈ vals, x.isSome = true :=
    hfull (nm, vals) (List.mem_append_right _ (List.mem_cons_self _ _))
  have hfil : (s.df.cols.map Prod.fst).filter containsCloseCI = [nm] := by
    rw [hsdf]
    show ((pre ++ (nm, vals) :: post).map Prod.fst).filter containsCloseCI
      = [nm]
    rw [List.map_append, List.map_cons, List.filter_append,
      List.filter_cons_of_pos hnm]
    rw [List.filter_eq_nil_iff.mpr (fun a ha => by
      obtain ⟨c, hc, rfl⟩ := List.mem_map.mp ha
      simp [hpre c hc])]
    rw [List.filter_eq_nil_iff.mpr (fun a ha => by
      obtain ⟨c, hc, rfl⟩ := List.mem_map.mp ha
      simp [hpost c hc])]
    rfl
  have hnorm : normalizedDF s.df nm = DF.mk idx (pre ++ ("close", vals) :: post) := by
    rw [hsdf]
    exact normalizedDF_split idx pre post nm vals hnm hpre hpost hrect hfull
  have hprene : ∀ c ∈ pre, c.1 ≠ "close" := by
    intro c hc he
    have h2 := hpre c hc
    rw [he] at h2
    rw [show containsCloseCI "close" = true from rfl] at h2
    simp at h2
  have hclose : (DF.mk idx (pre ++ ("close", vals) :: post)).getCol "close"
      = vals := getCol_split idx pre post "close" vals hprene
  obtain ⟨hma, hrsi, hup, hlo⟩ :=
    withIndicators_cols sq (DF.mk idx (pre ++ ("close", vals) :: post))
  rw [hclose] at hma hrsi hup hlo
  have hidx : (withIndicators sq (normalizedDF s.df nm)).index = idx := by
    rw [hnorm, index_withIndicators]
  unfold preprocessData
  rw [hfil]
  refine ⟨_, (withIndicators sq (normalizedDF s.df nm)).outputRows,
    rfl, by rw [hidx], rfl, ?_, ?_⟩
  · unfold DF.outputRows
    rw [hidx]
    simp
  · intro i hio
    have hilen : i < idx.length := by
      unfold DF.outputRows at hio
      rw [hidx] at hio
      simpa using hio
    have hrowi : (withIndicators sq (normalizedDF s.df nm)).outputRows[i]
        = (rollingMeanAt 10 vals i, rsiAt 14 vals i,
          upperBandAt sq 10 2 vals i, lowerBandAt sq 10 2 vals i) := by
      unfold DF.outputRows
      rw [List.getElem_map, List.getElem_range]
      rw [hnorm]
      rw [hma, hrsi, hup, hlo]
      unfold rollingMaCol rsiCol upperBandCol lowerBandCol
      rw [getD_range_map _ _ _ (by rw [hvlen]; exact hilen),
        getD_range_map _ _ _ (by rw [hvlen]; exact hilen),
        getD_range_map _ _ _ (by rw [hvlen]; exact hilen),
        getD_range_map _ _ _ (by rw [hvlen]; exact hilen)]
    obtain ⟨ys, rfl⟩ := exists_unmap vals hvfull
    have hylen : i < ys.length := by
      rw [← hvlen] at hilen
      simpa using hilen
    refine ⟨hrowi, ?_, ?_, ?_, ?_⟩
    · rw [hrowi]
      show rollingMeanAt 10 (ys.map some) i = none ↔ i < 9
      rw [rollingMeanAt_none_iff ys 10 i hylen]
      omega
    · rw [hrowi]
      show upperBandAt sq 10 2 (ys.map some) i = none ↔ i < 9
      rw [upperBandAt_none_iff sq 10 2 ys i hylen]
      omega
    · rw [hrowi]
      show lowerBandAt sq 10 2 (ys.map some) i = none ↔ i < 9
      rw [lowerBandAt_none_iff sq 10 2 ys i hylen]
      omega
    · rw [hrowi]
      show rsiAt 14 (ys.map some) i = none ↔ _
      rw [rsiAt_none_iff_map_some ys 14 i hylen]
      constructor
      · rintro (h | h)
        · exact Or.inl (by omega)
        · exact Or.inr h
      · rintro (h | h)
        · exact Or.inl (by omega)
        · exact Or.inr h

/-- Witness for the amended claim C4 at a normalized three-row frame:
the pipeline succeeds with three all-null indicator rows aligned to the
input timestamps. -/
theorem claim_C4_amended_witness :
    ∃ t out, preprocessData (fun x : ℚ => x) mdNormal3 = Except.ok t ∧
      t.timestamps = some [0, 1, 2] ∧ t.processedData = some out ∧
      out.length = ([0, 1, 2] : List Int).length ∧
      ∀ i : ℕ, ∀ hio : i < out.length,
        out[i] = (rollingMeanAt 10 ([some 1, some 2, some 3] : List (Option ℚ)) i,
          rsiAt 14 ([some 1, some 2, some 3] : List (Option ℚ)) i,
          upperBandAt (fun x : ℚ => x) 10 2 [some 1, some 2, some 3] i,
          lowerBandAt (fun x : ℚ => x) 10 2 [some 1, some 2, some 3] i) ∧
        (out[i].1 = none ↔ i < 9) ∧
        (out[i].2.2.1 = none ↔ i < 9) ∧
        (out[i].2.2.2 = none ↔ i < 9) ∧
        (out[i].2.1 = none ↔ (i < 13 ∨
          (avgGainAt 14 ([some 1, some 2, some 3] : List (Option ℚ)) i = some 0 ∧
            avgLossAt 14 ([some 1, some 2, some 3] : List (Option ℚ)) i = some 0))) :=
  claim_C4_amended ℚ (fun x : ℚ => x) mdNormal3 [0, 1, 2] [] []
    "4. close" ([some 1, some 2, some 3] : List (Option ℚ)) rfl rfl
    (by intro c hc; simp at hc)
    (by intro c hc; simp at hc)
    (by
      intro c hc
      have hc2 : c = ("4. close", [some (1 : ℚ), some 2, some 3]) := by
        simpa using hc
      rw [hc2]
      rfl)
    (by
      intro c hc
      have hc2 : c = ("4. close", [some (1 : ℚ), some 2, some 3]) := by
        simpa using hc
      rw [hc2]
      intro x hx
      rcases List.mem_cons.mp hx with rfl | hx2
      · rfl
      · rcases List.mem_cons.mp hx2 with rfl | hx3
        · rfl
        · rcases List.mem_cons.mp hx3 with rfl | hx4
          · rfl
          · simp at hx4)

end NYFA
